import Mathlib

set_option maxRecDepth 100000

/-
A shallow embedding of the sharded sliding-window rate limiter of package
`ratelimit` (file `ratelimit.go`), together with proofs about it.

Modelling conventions:

* Go `int` fields and parameters are modelled as `Int`; machine-word overflow
  is not modelled.  The `uint64` metric counters are modelled as `Nat`.
* `time.Time` instants and `time.Duration` values are modelled as `Int`
  nanosecond counts.  Each operation takes the current instant `now` as an
  explicit parameter in place of `time.Now().UTC()`; `isAllowed` reads the
  clock a second time for `time.Since(counter.windowStart)` (line 185), which
  the sequential model identifies with the same `now`.
* A Go `map[string]*tSlidingWindowCounter` is modelled as an association list:
  `mapGet` is map lookup and `mapSet` is map assignment (replace if the key is
  present, append otherwise).  In-place mutation of a counter through its
  pointer is modelled by writing the updated counter back into the list.
* Lines 194-198 of `ratelimit.go` compute, in `float64` arithmetic,
  `weightPrev = 1.0 - elapsed.Seconds()/windowDuration.Seconds()` and
  `weightedCount = int(float64(prevCount)*weightPrev) + currentCount`.
  Evaluated exactly (float64 rounding is not modelled), the value converted to
  `int` is `prevCount * (windowDuration - elapsed) / windowDuration`, and Go's
  float-to-int conversion truncates toward zero, so the model uses `Int.tdiv`
  (truncated division) of the exact integer product.
* The mutexes and the atomic metric increments serialize all operations; the
  embedding is the resulting sequential state-transformer semantics, with each
  operation passing the limiter state explicitly.
* `getShard` (lines 129-137) sums the bytes of the key and reduces modulo 256.
  Client keys are ASCII IP-address strings, for which the UTF-8 byte values
  coincide with the character code points, so the model sums `Char.toNat` over
  `String.data`.
-/

/-- Per-client sliding-window counter (`tSlidingWindowCounter`, lines 25-30).
The `sync.Mutex` field is concurrency plumbing and has no sequential content. -/
structure tSlidingWindowCounter where
  prevCount : Int
  currentCount : Int
  windowStart : Int
  deriving DecidableEq

/-- `tClientList` (line 34): the IP-to-counter map of one shard. -/
abbrev tClientList := List (String × tSlidingWindowCounter)

/-- One shard of the rate limiter (`tSlidingWindowShard`, lines 38-41). -/
structure tSlidingWindowShard where
  clients : tClientList
  deriving DecidableEq

/-- Rate-limiting metrics (`TMetrics`, lines 44-49). -/
structure TMetrics where
  TotalRequests : Nat
  BlockedRequests : Nat
  ActiveClients : Nat
  CleanupDuration : Int
  deriving DecidableEq

/-- The sharded limiter (`tShardedLimiter`, lines 53-59).  The Go field is a
fixed-size array `[256]*tSlidingWindowShard`; the model uses a list, and
constructed limiters always have exactly 256 shards. -/
structure tShardedLimiter where
  shards : List tSlidingWindowShard
  maxRequests : Int
  windowDuration : Int
  cleanupInterval : Int
  metrics : TMetrics
  deriving DecidableEq

/-- Go map lookup `shard.clients[aIP]`. -/
def mapGet : tClientList → String → Option tSlidingWindowCounter
  | [], _ => none
  | (ip0, c0) :: rest, aIP => if ip0 = aIP then some c0 else mapGet rest aIP

/-- Go map assignment `shard.clients[aIP] = counter` (also models in-place
mutation of the counter an entry points to). -/
def mapSet : tClientList → String → tSlidingWindowCounter → tClientList
  | [], aIP, aCounter => [(aIP, aCounter)]
  | (ip0, c0) :: rest, aIP, aCounter =>
    if ip0 = aIP then (aIP, aCounter) :: rest
    else (ip0, c0) :: mapSet rest aIP aCounter

/-- The byte-sum shard hash of `getShard` (lines 129-137): sum of the bytes of
the key modulo 256. -/
def shardIndex (aIP : String) : Nat :=
  (aIP.data.map Char.toNat).sum % 256

/-- `getShard` (lines 129-137): the shard holding the given IP address. -/
def tShardedLimiter.getShard (sl : tShardedLimiter) (aIP : String) : tSlidingWindowShard :=
  sl.shards.getD (shardIndex aIP) ⟨[]⟩

/-- `cleanShard` (lines 70-95): remove every client whose `windowStart` is
before the threshold (`aCounter.windowStart.Before(aThreshold)`, strict). -/
def tSlidingWindowShard.cleanShard (sws : tSlidingWindowShard) (aThreshold : Int) :
    tSlidingWindowShard :=
  ⟨sws.clients.filter (fun kv => ¬ (kv.2.windowStart < aThreshold))⟩

/-- `cleanup` (lines 101-107): sweep every shard with threshold
`now - 2 * windowDuration`. -/
def tShardedLimiter.cleanup (sl : tShardedLimiter) (now : Int) : tShardedLimiter :=
  let threshold := now - sl.windowDuration * 2
  { sl with shards := sl.shards.map (fun sws => sws.cleanShard threshold) }

/-- `GetMetrics` (lines 139-153): snapshot of the metrics; `ActiveClients` is
the sum of the shard map sizes. -/
def tShardedLimiter.GetMetrics (sl : tShardedLimiter) : TMetrics :=
  { TotalRequests := sl.metrics.TotalRequests
    BlockedRequests := sl.metrics.BlockedRequests
    ActiveClients := (sl.shards.map (fun shard => shard.clients.length)).sum
    CleanupDuration := sl.cleanupInterval }

/-- `isAllowed` (lines 163-208): the admission decision.  Returns the decision
together with the updated limiter state. -/
def tShardedLimiter.isAllowed (sl : tShardedLimiter) (aIP : String) (now : Int) :
    Bool × tShardedLimiter :=
  -- line 164: atomic.AddUint64(&sl.metrics.TotalRequests, 1)
  let sl1 := { sl with metrics := { sl.metrics with TotalRequests := sl.metrics.TotalRequests + 1 } }
  let idx := shardIndex aIP
  let shard := sl1.shards.getD idx ⟨[]⟩
  match mapGet shard.clients aIP with
  | none =>
    -- lines 172-179: create the counter; first request is always allowed
    let counter : tSlidingWindowCounter := { prevCount := 0, currentCount := 1, windowStart := now }
    let shard2 : tSlidingWindowShard := ⟨mapSet shard.clients aIP counter⟩
    (true, { sl1 with shards := sl1.shards.set idx shard2 })
  | some counter =>
    let elapsed := now - counter.windowStart
    if sl1.windowDuration < elapsed then
      -- lines 186-191: window has expired, shift window
      let shard2 : tSlidingWindowShard :=
        ⟨mapSet shard.clients aIP
          { prevCount := counter.currentCount, currentCount := 1, windowStart := now }⟩
      (true, { sl1 with shards := sl1.shards.set idx shard2 })
    else
      -- lines 194-198: weighted sliding-window count (see the header comment
      -- for the float64-to-exact-arithmetic rendering)
      let weightedCount :=
        Int.tdiv (counter.prevCount * (sl1.windowDuration - elapsed)) sl1.windowDuration
          + counter.currentCount
      if weightedCount ≤ sl1.maxRequests then
        let shard2 : tSlidingWindowShard :=
          ⟨mapSet shard.clients aIP { counter with currentCount := counter.currentCount + 1 }⟩
        (true, { sl1 with shards := sl1.shards.set idx shard2 })
      else
        let m2 : TMetrics := { sl1.metrics with BlockedRequests := sl1.metrics.BlockedRequests + 1 }
        (false, { sl1 with metrics := m2 })

/-- `newShard` (lines 293-297). -/
def newShard : tSlidingWindowShard := ⟨[]⟩

/-- `newShardedLimiter` (lines 300-316).  The background cleanup goroutine is
not part of the sequential state; `cleanup` is applied explicitly by `tOp`
traces below. -/
def newShardedLimiter (aMaxReq : Int) (aDuration : Int) : tShardedLimiter :=
  { shards := List.replicate 256 newShard
    maxRequests := aMaxReq
    windowDuration := aDuration
    cleanupInterval := aDuration * 2
    metrics := { TotalRequests := 0, BlockedRequests := 0, ActiveClients := 0, CleanupDuration := 0 } }

/-- Outcome of one request through the handler returned by `Wrap`
(lines 336-350): 403 on failed client-IP resolution, 429 on a denied
admission, otherwise the next handler runs. -/
inductive tWrapOutcome where
  | forbidden
  | tooManyRequests
  | nextCalled
  deriving DecidableEq

/-- The request handler built by `Wrap` (lines 332-354).  Client-IP resolution
(`getClientIP`) is the external identity collaborator; its result is passed in
as `none` (resolution error) or `some ip`. -/
def wrapHandler (sl : tShardedLimiter) (aClientIP : Option String) (now : Int) :
    tWrapOutcome × tShardedLimiter :=
  match aClientIP with
  | none => (tWrapOutcome.forbidden, sl)
  | some ip =>
    let r := sl.isAllowed ip now
    if r.1 then (tWrapOutcome.nextCalled, r.2) else (tWrapOutcome.tooManyRequests, r.2)

/-- The counter currently stored for a key: lookup in the key's shard. -/
def stateAt (sl : tShardedLimiter) (aIP : String) : Option tSlidingWindowCounter :=
  mapGet (sl.getShard aIP).clients aIP

/-- Run a sequence of `isAllowed` calls, each given as (key, now); returns the
final limiter and the list of decisions, in call order. -/
def runCalls : tShardedLimiter → List (String × Int) → tShardedLimiter × List Bool
  | sl, [] => (sl, [])
  | sl, c :: rest =>
    let r := sl.isAllowed c.1 c.2
    let rr := runCalls r.2 rest
    (rr.1, r.1 :: rr.2)

/-- Run a sequence of `isAllowed` calls, pairing every call with its decision. -/
def runTrace : tShardedLimiter → List (String × Int) → tShardedLimiter × List ((String × Int) × Bool)
  | sl, [] => (sl, [])
  | sl, c :: rest =>
    let r := sl.isAllowed c.1 c.2
    let rr := runTrace r.2 rest
    (rr.1, (c, r.1) :: rr.2)

/-- All keys currently holding a live counter, shard by shard. -/
def liveKeys (sl : tShardedLimiter) : List String :=
  (sl.shards.map (fun shard => shard.clients.map Prod.fst)).flatten

/-- An operation on the limiter: an admission check or a cleanup sweep. -/
inductive tOp where
  | req : String → Int → tOp
  | sweep : Int → tOp

/-- Apply one operation to the limiter state. -/
def applyOp (sl : tShardedLimiter) : tOp → tShardedLimiter
  | tOp.req k t => (sl.isAllowed k t).2
  | tOp.sweep t => sl.cleanup t

/-- Run a sequence of operations from a given state. -/
def runOps (sl : tShardedLimiter) (ops : List tOp) : tShardedLimiter :=
  ops.foldl applyOp sl

/-- The per-counter admission step in isolation: what `isAllowed` decides and
stores for a key whose current map entry is `st` (`none` if absent), given the
limiter parameters.  Proved below (`isAllowed_fst`, `stateAt_isAllowed_self`)
to agree with `isAllowed`. -/
def admitStep (aMaxReq aWindow : Int) (st : Option tSlidingWindowCounter) (now : Int) :
    Bool × tSlidingWindowCounter :=
  match st with
  | none => (true, { prevCount := 0, currentCount := 1, windowStart := now })
  | some counter =>
    let elapsed := now - counter.windowStart
    if aWindow < elapsed then
      (true, { prevCount := counter.currentCount, currentCount := 1, windowStart := now })
    else
      let weightedCount :=
        Int.tdiv (counter.prevCount * (aWindow - elapsed)) aWindow + counter.currentCount
      if weightedCount ≤ aMaxReq then
        (true, { counter with currentCount := counter.currentCount + 1 })
      else
        (false, counter)

-- ---------------------------------------------------------------------------
-- Association-list (Go map) lemmas

theorem mapGet_mapSet_self (l : tClientList) (k : String) (c : tSlidingWindowCounter) :
    mapGet (mapSet l k c) k = some c := by
  induction l with
  | nil => simp [mapGet, mapSet]
  | cons hd tl ih =>
    obtain ⟨k0, c0⟩ := hd
    by_cases h : k0 = k
    · simp [mapSet, h, mapGet]
    · simp [mapSet, h, mapGet, ih]

theorem mapGet_mapSet_ne (l : tClientList) (k k' : String) (c : tSlidingWindowCounter)
    (h : k' ≠ k) : mapGet (mapSet l k c) k' = mapGet l k' := by
  induction l with
  | nil => simp [mapGet, mapSet, h, Ne.symm h]
  | cons hd tl ih =>
    obtain ⟨k0, c0⟩ := hd
    by_cases h0 : k0 = k
    · subst h0; simp [mapSet, mapGet, Ne.symm h, h]
    · simp [mapSet, h0, mapGet, ih]

theorem mem_mapSet (l : tClientList) (k : String) (c : tSlidingWindowCounter) :
    ∀ kv ∈ mapSet l k c, kv = (k, c) ∨ kv ∈ l := by
  induction l with
  | nil =>
    intro kv hkv
    simp only [mapSet, List.mem_singleton] at hkv
    exact Or.inl hkv
  | cons hd tl ih =>
    obtain ⟨k0, c0⟩ := hd
    intro kv hkv
    by_cases h : k0 = k
    · simp only [mapSet, if_pos h] at hkv
      rcases List.mem_cons.mp hkv with h1 | h1
      · exact Or.inl h1
      · exact Or.inr (List.mem_cons_of_mem _ h1)
    · simp only [mapSet, if_neg h] at hkv
      rcases List.mem_cons.mp hkv with h1 | h1
      · refine Or.inr ?_
        rw [h1]
        exact List.mem_cons_self _ _
      · rcases ih kv h1 with h2 | h2
        · exact Or.inl h2
        · exact Or.inr (List.mem_cons_of_mem _ h2)

theorem mapGet_eq_none_iff (l : tClientList) (k : String) :
    mapGet l k = none ↔ k ∉ l.map Prod.fst := by
  induction l with
  | nil => simp [mapGet]
  | cons hd tl ih =>
    obtain ⟨k0, c0⟩ := hd
    by_cases h : k0 = k
    · simp [mapGet, h]
    · simp [mapGet, h, ih, Ne.symm h]

theorem mapGet_mem (l : tClientList) (k : String) (c : tSlidingWindowCounter)
    (h : mapGet l k = some c) : (k, c) ∈ l := by
  induction l with
  | nil => simp [mapGet] at h
  | cons hd tl ih =>
    obtain ⟨k0, c0⟩ := hd
    by_cases h0 : k0 = k
    · subst h0
      simp [mapGet] at h
      simp [h]
    · simp [mapGet, h0] at h
      exact List.mem_cons_of_mem _ (ih h)

theorem keys_mapSet_some (l : tClientList) (k : String) (c : tSlidingWindowCounter)
    (h : mapGet l k ≠ none) : (mapSet l k c).map Prod.fst = l.map Prod.fst := by
  induction l with
  | nil => simp [mapGet] at h
  | cons hd tl ih =>
    obtain ⟨k0, c0⟩ := hd
    by_cases h0 : k0 = k
    · subst h0; simp [mapSet]
    · simp [mapGet, h0] at h
      simp [mapSet, h0, ih h]

theorem keys_mapSet_none (l : tClientList) (k : String) (c : tSlidingWindowCounter)
    (h : mapGet l k = none) : (mapSet l k c).map Prod.fst = l.map Prod.fst ++ [k] := by
  induction l with
  | nil => simp [mapSet]
  | cons hd tl ih =>
    obtain ⟨k0, c0⟩ := hd
    by_cases h0 : k0 = k
    · subst h0; simp [mapGet] at h
    · simp [mapGet, h0] at h
      simp [mapSet, h0, ih h]

-- ---------------------------------------------------------------------------
-- List.set/getD lemmas

theorem getD_set_eval {α : Type} (l : List α) (i j : Nat) (a d : α) :
    (l.set i a).getD j d = if i = j ∧ i < l.length then a else l.getD j d := by
  by_cases hij : i = j
  · subst hij
    by_cases hlt : i < l.length
    · simp [List.getD_eq_getElem?_getD, List.getElem?_set, hlt]
    · have hnone : l[i]? = none := by
        rw [List.getElem?_eq_none_iff]
        omega
      simp [List.getD_eq_getElem?_getD, List.getElem?_set, hlt, hnone]
  · simp [List.getD_eq_getElem?_getD, List.getElem?_set, hij]

theorem shardIndex_lt (aIP : String) : shardIndex aIP < 256 :=
  Nat.mod_lt _ (by norm_num)

-- ---------------------------------------------------------------------------
-- Behaviour of `isAllowed` through `stateAt`

theorem isAllowed_fst (sl : tShardedLimiter) (aIP : String) (now : Int) :
    (sl.isAllowed aIP now).1 =
      (admitStep sl.maxRequests sl.windowDuration (stateAt sl aIP) now).1 := by
  cases h : mapGet ((sl.shards[shardIndex aIP]?).getD ⟨[]⟩).clients aIP with
  | none =>
    simp [tShardedLimiter.isAllowed, admitStep, stateAt, tShardedLimiter.getShard,
      List.getD_eq_getElem?_getD, h]
  | some counter =>
    by_cases h1 : sl.windowDuration < now - counter.windowStart
    · simp [tShardedLimiter.isAllowed, admitStep, stateAt, tShardedLimiter.getShard,
        List.getD_eq_getElem?_getD, h, h1]
    · by_cases h2 : Int.tdiv (counter.prevCount * (sl.windowDuration - (now - counter.windowStart)))
          sl.windowDuration + counter.currentCount ≤ sl.maxRequests
      · simp [tShardedLimiter.isAllowed, admitStep, stateAt, tShardedLimiter.getShard,
          List.getD_eq_getElem?_getD, h, h1, h2]
      · simp [tShardedLimiter.isAllowed, admitStep, stateAt, tShardedLimiter.getShard,
          List.getD_eq_getElem?_getD, h, h1, h2]

theorem mapGet_shards_set_self (shards : List tSlidingWindowShard) (aIP : String)
    (c : tSlidingWindowCounter) (hr : shardIndex aIP < shards.length) :
    mapGet (((shards.set (shardIndex aIP)
        ⟨mapSet ((shards[shardIndex aIP]?).getD ⟨[]⟩).clients aIP c⟩)[shardIndex aIP]?).getD
          ⟨[]⟩).clients aIP = some c := by
  simp [List.getElem?_set, hr, mapGet_mapSet_self]

theorem mapGet_shards_set_ne (shards : List tSlidingWindowShard) (aIP k : String)
    (c : tSlidingWindowCounter) (hk : k ≠ aIP) :
    mapGet (((shards.set (shardIndex aIP)
        ⟨mapSet ((shards[shardIndex aIP]?).getD ⟨[]⟩).clients aIP c⟩)[shardIndex k]?).getD
          ⟨[]⟩).clients k = mapGet ((shards[shardIndex k]?).getD ⟨[]⟩).clients k := by
  by_cases hs : shardIndex aIP = shardIndex k
  · rw [← hs]
    by_cases hr : shardIndex aIP < shards.length
    · simp [List.getElem?_set, hr, mapGet_mapSet_ne _ _ _ _ hk]
    · have hnone : shards[shardIndex aIP]? = none := by
        rw [List.getElem?_eq_none_iff]
        omega
      simp [List.getElem?_set, hr, hnone, mapGet]
  · simp [List.getElem?_set, hs]

theorem stateAt_isAllowed_self (sl : tShardedLimiter) (aIP : String) (now : Int)
    (hlen : sl.shards.length = 256) :
    stateAt (sl.isAllowed aIP now).2 aIP =
      some (admitStep sl.maxRequests sl.windowDuration (stateAt sl aIP) now).2 := by
  have hidx : shardIndex aIP < sl.shards.length := by
    rw [hlen]
    exact shardIndex_lt aIP
  cases h : mapGet ((sl.shards[shardIndex aIP]?).getD ⟨[]⟩).clients aIP with
  | none =>
    simp only [tShardedLimiter.isAllowed, stateAt, tShardedLimiter.getShard,
      List.getD_eq_getElem?_getD, h, admitStep]
    exact mapGet_shards_set_self sl.shards aIP _ hidx
  | some counter =>
    by_cases h1 : sl.windowDuration < now - counter.windowStart
    · simp only [tShardedLimiter.isAllowed, stateAt, tShardedLimiter.getShard,
        List.getD_eq_getElem?_getD, h, admitStep, if_pos h1]
      exact mapGet_shards_set_self sl.shards aIP _ hidx
    · by_cases h2 : Int.tdiv (counter.prevCount * (sl.windowDuration - (now - counter.windowStart)))
          sl.windowDuration + counter.currentCount ≤ sl.maxRequests
      · simp only [tShardedLimiter.isAllowed, stateAt, tShardedLimiter.getShard,
          List.getD_eq_getElem?_getD, h, admitStep, if_neg h1, if_pos h2]
        exact mapGet_shards_set_self sl.shards aIP _ hidx
      · simp only [tShardedLimiter.isAllowed, stateAt, tShardedLimiter.getShard,
          List.getD_eq_getElem?_getD, h, admitStep, if_neg h1, if_neg h2]

theorem stateAt_isAllowed_ne (sl : tShardedLimiter) (aIP : String) (now : Int) (k : String)
    (hk : k ≠ aIP) :
    stateAt (sl.isAllowed aIP now).2 k = stateAt sl k := by
  cases h : mapGet ((sl.shards[shardIndex aIP]?).getD ⟨[]⟩).clients aIP with
  | none =>
    simp only [tShardedLimiter.isAllowed, stateAt, tShardedLimiter.getShard,
      List.getD_eq_getElem?_getD, h]
    exact mapGet_shards_set_ne sl.shards aIP k _ hk
  | some counter =>
    by_cases h1 : sl.windowDuration < now - counter.windowStart
    · simp only [tShardedLimiter.isAllowed, stateAt, tShardedLimiter.getShard,
        List.getD_eq_getElem?_getD, h, if_pos h1]
      exact mapGet_shards_set_ne sl.shards aIP k _ hk
    · by_cases h2 : Int.tdiv (counter.prevCount * (sl.windowDuration - (now - counter.windowStart)))
          sl.windowDuration + counter.currentCount ≤ sl.maxRequests
      · simp only [tShardedLimiter.isAllowed, stateAt, tShardedLimiter.getShard,
          List.getD_eq_getElem?_getD, h, if_neg h1, if_pos h2]
        exact mapGet_shards_set_ne sl.shards aIP k _ hk
      · simp only [tShardedLimiter.isAllowed, stateAt, tShardedLimiter.getShard,
          List.getD_eq_getElem?_getD, h, if_neg h1, if_neg h2]

theorem isAllowed_params (sl : tShardedLimiter) (aIP : String) (now : Int) :
    (sl.isAllowed aIP now).2.maxRequests = sl.maxRequests ∧
    (sl.isAllowed aIP now).2.windowDuration = sl.windowDuration ∧
    (sl.isAllowed aIP now).2.cleanupInterval = sl.cleanupInterval ∧
    (sl.isAllowed aIP now).2.shards.length = sl.shards.length := by
  cases h : mapGet ((sl.shards[shardIndex aIP]?).getD ⟨[]⟩).clients aIP with
  | none =>
    simp [tShardedLimiter.isAllowed, List.getD_eq_getElem?_getD, h]
  | some counter =>
    by_cases h1 : sl.windowDuration < now - counter.windowStart
    · simp [tShardedLimiter.isAllowed, List.getD_eq_getElem?_getD, h, h1]
    · by_cases h2 : Int.tdiv (counter.prevCount * (sl.windowDuration - (now - counter.windowStart)))
          sl.windowDuration + counter.currentCount ≤ sl.maxRequests
      · simp [tShardedLimiter.isAllowed, List.getD_eq_getElem?_getD, h, h1, h2]
      · simp [tShardedLimiter.isAllowed, List.getD_eq_getElem?_getD, h, h1, h2]

theorem isAllowed_total (sl : tShardedLimiter) (aIP : String) (now : Int) :
    (sl.isAllowed aIP now).2.metrics.TotalRequests = sl.metrics.TotalRequests + 1 := by
  cases h : mapGet ((sl.shards[shardIndex aIP]?).getD ⟨[]⟩).clients aIP with
  | none =>
    simp [tShardedLimiter.isAllowed, List.getD_eq_getElem?_getD, h]
  | some counter =>
    by_cases h1 : sl.windowDuration < now - counter.windowStart
    · simp [tShardedLimiter.isAllowed, List.getD_eq_getElem?_getD, h, h1]
    · by_cases h2 : Int.tdiv (counter.prevCount * (sl.windowDuration - (now - counter.windowStart)))
          sl.windowDuration + counter.currentCount ≤ sl.maxRequests
      · simp [tShardedLimiter.isAllowed, List.getD_eq_getElem?_getD, h, h1, h2]
      · simp [tShardedLimiter.isAllowed, List.getD_eq_getElem?_getD, h, h1, h2]

theorem isAllowed_blocked (sl : tShardedLimiter) (aIP : String) (now : Int) :
    (sl.isAllowed aIP now).2.metrics.BlockedRequests =
      sl.metrics.BlockedRequests + (if (sl.isAllowed aIP now).1 = false then 1 else 0) := by
  cases h : mapGet ((sl.shards[shardIndex aIP]?).getD ⟨[]⟩).clients aIP with
  | none =>
    simp [tShardedLimiter.isAllowed, List.getD_eq_getElem?_getD, h]
  | some counter =>
    by_cases h1 : sl.windowDuration < now - counter.windowStart
    · simp [tShardedLimiter.isAllowed, List.getD_eq_getElem?_getD, h, h1]
    · by_cases h2 : Int.tdiv (counter.prevCount * (sl.windowDuration - (now - counter.windowStart)))
          sl.windowDuration + counter.currentCount ≤ sl.maxRequests
      · simp [tShardedLimiter.isAllowed, List.getD_eq_getElem?_getD, h, h1, h2]
      · simp [tShardedLimiter.isAllowed, List.getD_eq_getElem?_getD, h, h1, h2]

theorem isAllowed_shards_of_false (sl : tShardedLimiter) (aIP : String) (now : Int)
    (hfalse : (sl.isAllowed aIP now).1 = false) :
    (sl.isAllowed aIP now).2.shards = sl.shards := by
  cases h : mapGet ((sl.shards[shardIndex aIP]?).getD ⟨[]⟩).clients aIP with
  | none =>
    simp [tShardedLimiter.isAllowed, List.getD_eq_getElem?_getD, h] at hfalse
  | some counter =>
    by_cases h1 : sl.windowDuration < now - counter.windowStart
    · simp [tShardedLimiter.isAllowed, List.getD_eq_getElem?_getD, h, h1] at hfalse
    · by_cases h2 : Int.tdiv (counter.prevCount * (sl.windowDuration - (now - counter.windowStart)))
          sl.windowDuration + counter.currentCount ≤ sl.maxRequests
      · simp [tShardedLimiter.isAllowed, List.getD_eq_getElem?_getD, h, h1, h2] at hfalse
      · simp [tShardedLimiter.isAllowed, List.getD_eq_getElem?_getD, h, h1, h2]

-- ---------------------------------------------------------------------------
-- The exact-arithmetic weighted count equals the specified floor formula

theorem tdiv_weight_eq_floor (p W e : Int) (hp : 0 ≤ p) (hW : 0 < W) (he : e ≤ W) :
    Int.tdiv (p * (W - e)) W = ⌊(p : ℚ) * (1 - (e : ℚ) / (W : ℚ))⌋ := by
  have hnum : 0 ≤ p * (W - e) := mul_nonneg hp (by omega)
  have htn : ((W.toNat : ℤ)) = W := Int.toNat_of_nonneg hW.le
  have hWne : (W : ℚ) ≠ 0 := by
    exact_mod_cast hW.ne'
  have harg : (p : ℚ) * (1 - (e : ℚ) / (W : ℚ))
      = ((p * (W - e) : Int) : ℚ) / ((W.toNat : ℕ) : ℚ) := by
    have hcast : ((W.toNat : ℕ) : ℚ) = (W : ℚ) := by
      exact_mod_cast htn
    rw [hcast]
    push_cast
    field_simp
  rw [harg, Rat.floor_intCast_div_natCast, htn, Int.tdiv_eq_ediv hnum hW.le]

-- ---------------------------------------------------------------------------
-- Claim theorems (C1-C5, C7, C9)

/-- C1, evaluation of the code at the claim's failing input: with
`maxRequests = 1` and `windowDuration = 30`, the first `isAllowed("A")` call
returns `true` and the second immediate call also returns `true` — the
`(N+1)`th request within the window is admitted, not denied as the claim (and
the repository's own tests and spec example) state.  The denial only arrives
at the third call, shown last. -/
theorem c1_code_eval :
    ((newShardedLimiter 1 30).isAllowed "A" 0).1 = true ∧
    (((newShardedLimiter 1 30).isAllowed "A" 0).2.isAllowed "A" 0).1 = true ∧
    ((((newShardedLimiter 1 30).isAllowed "A" 0).2.isAllowed "A" 0).2.isAllowed "A" 0).1
      = false := by
  refine ⟨by decide, by decide, by decide⟩

/-- C2: for a call on an existing counter within the window
(`elapsed ≤ windowDuration`), the decision is `true` iff
`floor(previousCount * (1 - elapsed/windowDuration)) + currentCount ≤
maxRequests`, and an admitted call increments `currentCount` by exactly one,
leaving the other fields unchanged.  The nonnegativity hypotheses on
`prevCount` hold for every reachable counter (see the C10 invariant). -/
theorem c2_weighted_window_decision (sl : tShardedLimiter) (aIP : String) (now : Int)
    (c : tSlidingWindowCounter) (hc : stateAt sl aIP = some c)
    (hlen : sl.shards.length = 256)
    (hW : 0 < sl.windowDuration)
    (hprev : 0 ≤ c.prevCount)
    (helapsed : now - c.windowStart ≤ sl.windowDuration) :
    ((sl.isAllowed aIP now).1 = true ↔
      ⌊(c.prevCount : ℚ) *
          (1 - ((now - c.windowStart : Int) : ℚ) / ((sl.windowDuration : Int) : ℚ))⌋
        + c.currentCount ≤ sl.maxRequests) ∧
    ((sl.isAllowed aIP now).1 = true →
      stateAt (sl.isAllowed aIP now).2 aIP =
        some { prevCount := c.prevCount, currentCount := c.currentCount + 1,
               windowStart := c.windowStart }) := by
  have hfloor := tdiv_weight_eq_floor c.prevCount sl.windowDuration (now - c.windowStart)
    hprev hW helapsed
  have hfst := isAllowed_fst sl aIP now
  have hself := stateAt_isAllowed_self sl aIP now hlen
  rw [hc] at hfst hself
  have hnot : ¬ sl.windowDuration < now - c.windowStart := not_lt.mpr helapsed
  constructor
  · rw [hfst]
    simp only [admitStep, if_neg hnot, ← hfloor]
    by_cases h2 : Int.tdiv (c.prevCount * (sl.windowDuration - (now - c.windowStart)))
        sl.windowDuration + c.currentCount ≤ sl.maxRequests
    · simp [h2]
    · simp [h2]
  · intro htrue
    rw [hfst] at htrue
    rw [hself]
    simp only [admitStep, if_neg hnot] at htrue ⊢
    by_cases h2 : Int.tdiv (c.prevCount * (sl.windowDuration - (now - c.windowStart)))
        sl.windowDuration + c.currentCount ≤ sl.maxRequests
    · simp [h2]
    · simp [h2] at htrue

/-- C3: a key with no counter in its shard is always admitted, whatever
`maxRequests` is (the limiter is arbitrary, so in particular `maxRequests`
may be 0 or negative), and a counter with `currentCount = 1`,
`windowStart = now` (and `prevCount = 0`, Go's zero value) is installed. -/
theorem c3_first_request_admitted (sl : tShardedLimiter) (aIP : String) (now : Int)
    (hnone : stateAt sl aIP = none) (hlen : sl.shards.length = 256) :
    (sl.isAllowed aIP now).1 = true ∧
    stateAt (sl.isAllowed aIP now).2 aIP =
      some { prevCount := 0, currentCount := 1, windowStart := now } := by
  have hfst := isAllowed_fst sl aIP now
  have hself := stateAt_isAllowed_self sl aIP now hlen
  rw [hnone] at hfst hself
  simp only [admitStep] at hfst hself
  exact ⟨hfst, hself⟩

/-- C4: a call on an existing counter with `elapsed > windowDuration` is
admitted, and afterwards `prevCount` is the pre-call `currentCount`,
`currentCount = 1` and `windowStart = now`. -/
theorem c4_window_rollover (sl : tShardedLimiter) (aIP : String) (now : Int)
    (c : tSlidingWindowCounter) (hc : stateAt sl aIP = some c)
    (hlen : sl.shards.length = 256)
    (hexp : sl.windowDuration < now - c.windowStart) :
    (sl.isAllowed aIP now).1 = true ∧
    stateAt (sl.isAllowed aIP now).2 aIP =
      some { prevCount := c.currentCount, currentCount := 1, windowStart := now } := by
  have hfst := isAllowed_fst sl aIP now
  have hself := stateAt_isAllowed_self sl aIP now hlen
  rw [hc] at hfst hself
  simp only [admitStep, if_pos hexp] at hfst hself
  exact ⟨hfst, hself⟩

/-- C5: a denied call leaves every shard (hence every counter, in particular
the caller's) exactly as it was, and repeating the call at the same instant
is denied again. -/
theorem c5_denial_frame (sl : tShardedLimiter) (aIP : String) (now : Int)
    (hfalse : (sl.isAllowed aIP now).1 = false) :
    (sl.isAllowed aIP now).2.shards = sl.shards ∧
    ((sl.isAllowed aIP now).2.isAllowed aIP now).1 = false := by
  have hsh := isAllowed_shards_of_false sl aIP now hfalse
  refine ⟨hsh, ?_⟩
  have h1 := isAllowed_fst sl aIP now
  have h2 := isAllowed_fst (sl.isAllowed aIP now).2 aIP now
  have hp := isAllowed_params sl aIP now
  have hstate : stateAt (sl.isAllowed aIP now).2 aIP = stateAt sl aIP := by
    unfold stateAt tShardedLimiter.getShard
    rw [hsh]
  rw [h2, hp.1, hp.2.1, hstate, ← h1, hfalse]

/-- C7: the cleanup sweep at instant `now` deletes a map entry exactly when
its `windowStart` is strictly before `now - 2 * windowDuration`; every other
entry survives unchanged and nothing is added. -/
theorem c7_cleanup_threshold (sl : tShardedLimiter) (now : Int) (i : Nat) (k : String)
    (c : tSlidingWindowCounter) :
    (∃ sh, (sl.cleanup now).shards[i]? = some sh ∧ (k, c) ∈ sh.clients) ↔
    (∃ sh, sl.shards[i]? = some sh ∧ (k, c) ∈ sh.clients ∧
      ¬ (c.windowStart < now - sl.windowDuration * 2)) := by
  simp only [tShardedLimiter.cleanup, List.getElem?_map, tSlidingWindowShard.cleanShard]
  cases hsh : sl.shards[i]? with
  | none => simp
  | some sh =>
    simp [List.mem_filter]

/-- C9: one request through the handler built by `Wrap` has exactly one of
three outcomes: failed client-IP resolution gives `forbidden` with the
limiter untouched (`isAllowed` is not called); a resolved key that
`isAllowed` denies gives `tooManyRequests`; an admitted key runs the next
handler. -/
theorem c9_wrap_outcomes (sl : tShardedLimiter) (aClientIP : Option String) (now : Int) :
    (aClientIP = none →
      wrapHandler sl aClientIP now = (tWrapOutcome.forbidden, sl)) ∧
    (∀ ip, aClientIP = some ip →
      ((sl.isAllowed ip now).1 = false →
        wrapHandler sl aClientIP now = (tWrapOutcome.tooManyRequests, (sl.isAllowed ip now).2)) ∧
      ((sl.isAllowed ip now).1 = true →
        wrapHandler sl aClientIP now = (tWrapOutcome.nextCalled, (sl.isAllowed ip now).2))) := by
  constructor
  · intro h
    subst h
    rfl
  · intro ip h
    subst h
    constructor
    · intro hf
      simp [wrapHandler, hf]
    · intro ht
      simp [wrapHandler, ht]

-- ---------------------------------------------------------------------------
-- C10: the counter-field invariant

/-- Every counter stored in the given shard list has `currentCount ≥ 1` and
`prevCount ≥ 0`. -/
abbrev shardsOk (shards : List tSlidingWindowShard) : Prop :=
  ∀ (i : Nat) (sh : tSlidingWindowShard), shards[i]? = some sh →
    ∀ kv ∈ sh.clients, 1 ≤ (kv.2).currentCount ∧ 0 ≤ (kv.2).prevCount

theorem shardsOk_new (aMaxReq aDuration : Int) :
    shardsOk (newShardedLimiter aMaxReq aDuration).shards := by
  intro i sh hsh kv hkv
  simp only [newShardedLimiter, List.getElem?_replicate] at hsh
  by_cases h : i < 256
  · rw [if_pos h] at hsh
    cases hsh
    simp [newShard] at hkv
  · rw [if_neg h] at hsh
    cases hsh

theorem shardsOk_set_mapSet (shards : List tSlidingWindowShard) (aIP : String)
    (c : tSlidingWindowCounter) (h : shardsOk shards)
    (hc : 1 ≤ c.currentCount ∧ 0 ≤ c.prevCount) :
    shardsOk (shards.set (shardIndex aIP)
      ⟨mapSet ((shards[shardIndex aIP]?).getD ⟨[]⟩).clients aIP c⟩) := by
  intro i sh hsh kv hkv
  rw [List.getElem?_set] at hsh
  by_cases hib : shardIndex aIP = i
  · rw [if_pos hib] at hsh
    by_cases hr : shardIndex aIP < shards.length
    · rw [if_pos hr] at hsh
      cases hsh
      rcases mem_mapSet _ _ _ kv hkv with hkc | hmem
      · rw [hkc]
        exact hc
      · cases hx : shards[shardIndex aIP]? with
        | none =>
          rw [hx] at hmem
          simp at hmem
        | some shOld =>
          rw [hx] at hmem
          exact h _ _ hx kv hmem
    · rw [if_neg hr] at hsh
      cases hsh
  · rw [if_neg hib] at hsh
    exact h i sh hsh kv hkv

theorem counter_ok_of_mapGet (shards : List tSlidingWindowShard) (aIP : String)
    (counter : tSlidingWindowCounter) (h : shardsOk shards)
    (hget : mapGet ((shards[shardIndex aIP]?).getD ⟨[]⟩).clients aIP = some counter) :
    1 ≤ counter.currentCount ∧ 0 ≤ counter.prevCount := by
  cases hx : shards[shardIndex aIP]? with
  | none =>
    rw [hx] at hget
    simp [mapGet] at hget
  | some shOld =>
    rw [hx] at hget
    exact h _ _ hx _ (mapGet_mem _ _ _ hget)

theorem shardsOk_isAllowed (sl : tShardedLimiter) (aIP : String) (now : Int)
    (h : shardsOk sl.shards) : shardsOk (sl.isAllowed aIP now).2.shards := by
  cases h0 : mapGet ((sl.shards[shardIndex aIP]?).getD ⟨[]⟩).clients aIP with
  | none =>
    simp only [tShardedLimiter.isAllowed, List.getD_eq_getElem?_getD, h0]
    exact shardsOk_set_mapSet sl.shards aIP _ h (by constructor <;> norm_num)
  | some counter =>
    have hcok := counter_ok_of_mapGet sl.shards aIP counter h h0
    by_cases h1 : sl.windowDuration < now - counter.windowStart
    · simp only [tShardedLimiter.isAllowed, List.getD_eq_getElem?_getD, h0, if_pos h1]
      refine shardsOk_set_mapSet sl.shards aIP _ h ?_
      constructor
      · norm_num
      · exact le_trans (by norm_num) hcok.1
    · by_cases h2 : Int.tdiv (counter.prevCount * (sl.windowDuration - (now - counter.windowStart)))
          sl.windowDuration + counter.currentCount ≤ sl.maxRequests
      · simp only [tShardedLimiter.isAllowed, List.getD_eq_getElem?_getD, h0, if_neg h1, if_pos h2]
        refine shardsOk_set_mapSet sl.shards aIP _ h ?_
        constructor
        · show 1 ≤ counter.currentCount + 1
          omega
        · exact hcok.2
      · simp only [tShardedLimiter.isAllowed, List.getD_eq_getElem?_getD, h0, if_neg h1, if_neg h2]
        exact h

theorem shardsOk_cleanup (sl : tShardedLimiter) (now : Int)
    (h : shardsOk sl.shards) : shardsOk (sl.cleanup now).shards := by
  intro i sh hsh kv hkv
  simp only [tShardedLimiter.cleanup, List.getElem?_map] at hsh
  cases hx : sl.shards[i]? with
  | none =>
    rw [hx] at hsh
    cases hsh
  | some sh0 =>
    rw [hx] at hsh
    simp only [Option.map_some'] at hsh
    cases hsh
    simp only [tSlidingWindowShard.cleanShard] at hkv
    exact h i sh0 hx kv (List.mem_filter.mp hkv).1

theorem shardsOk_runOps (ops : List tOp) (sl : tShardedLimiter)
    (h : shardsOk sl.shards) : shardsOk (runOps sl ops).shards := by
  induction ops generalizing sl with
  | nil => exact h
  | cons op rest ih =>
    have hstep : shardsOk (applyOp sl op).shards := by
      cases op with
      | req k t => exact shardsOk_isAllowed sl k t h
      | sweep t => exact shardsOk_cleanup sl t h
    exact ih (applyOp sl op) hstep

/-- C10: in every state reachable from a fresh limiter by any sequence of
admission checks and cleanup sweeps, every live counter stored in any shard
has `currentCount ≥ 1` and `prevCount ≥ 0`. -/
theorem c10_counter_invariant (aMaxReq aDuration : Int) (ops : List tOp) (i : Nat)
    (sh : tSlidingWindowShard) (k : String) (c : tSlidingWindowCounter)
    (hsh : (runOps (newShardedLimiter aMaxReq aDuration) ops).shards[i]? = some sh)
    (hmem : (k, c) ∈ sh.clients) :
    1 ≤ c.currentCount ∧ 0 ≤ c.prevCount :=
  shardsOk_runOps ops (newShardedLimiter aMaxReq aDuration)
    (shardsOk_new aMaxReq aDuration) i sh hsh (k, c) hmem

-- ---------------------------------------------------------------------------
-- C6: structural invariant of reachable shard lists

/-- Reachable shard lists have duplicate-free key lists in each shard, and
every entry lives in the shard its key routes to. -/
abbrev goodShards (shards : List tSlidingWindowShard) : Prop :=
  ∀ (i : Nat) (sh : tSlidingWindowShard), shards[i]? = some sh →
    (sh.clients.map Prod.fst).Nodup ∧ ∀ kv ∈ sh.clients, shardIndex kv.1 = i

theorem goodShards_new (aMaxReq aDuration : Int) :
    goodShards (newShardedLimiter aMaxReq aDuration).shards := by
  intro i sh hsh
  simp only [newShardedLimiter, List.getElem?_replicate] at hsh
  by_cases h : i < 256
  · rw [if_pos h] at hsh
    cases hsh
    constructor
    · simp [newShard]
    · simp [newShard]
  · rw [if_neg h] at hsh
    cases hsh

theorem goodShards_set_mapSet (shards : List tSlidingWindowShard) (aIP : String)
    (c : tSlidingWindowCounter) (h : goodShards shards) :
    goodShards (shards.set (shardIndex aIP)
      ⟨mapSet ((shards[shardIndex aIP]?).getD ⟨[]⟩).clients aIP c⟩) := by
  intro i sh hsh
  rw [List.getElem?_set] at hsh
  by_cases hib : shardIndex aIP = i
  · rw [if_pos hib] at hsh
    by_cases hr : shardIndex aIP < shards.length
    · rw [if_pos hr] at hsh
      cases hsh
      cases hx : shards[shardIndex aIP]? with
      | none =>
        constructor
        · simp [mapSet]
        · intro kv hkv
          simp only [Option.getD_none, mapSet, List.mem_singleton] at hkv
          rw [hkv, ← hib]
      | some shOld =>
        simp only [Option.getD_some]
        have hold := h _ _ hx
        by_cases hg : mapGet shOld.clients aIP = none
        · constructor
          · rw [keys_mapSet_none _ _ _ hg, List.nodup_append]
            refine ⟨hold.1, List.nodup_singleton _, ?_⟩
            simp only [List.disjoint_singleton]
            exact (mapGet_eq_none_iff _ _).mp hg
          · intro kv hkv
            rcases mem_mapSet _ _ _ kv hkv with hkc | hm
            · rw [hkc, ← hib]
            · rw [← hib]
              exact hold.2 kv hm
        · constructor
          · rw [keys_mapSet_some _ _ _ hg]
            exact hold.1
          · intro kv hkv
            rcases mem_mapSet _ _ _ kv hkv with hkc | hm
            · rw [hkc, ← hib]
            · rw [← hib]
              exact hold.2 kv hm
    · rw [if_neg hr] at hsh
      cases hsh
  · rw [if_neg hib] at hsh
    exact h i sh hsh

theorem goodShards_isAllowed (sl : tShardedLimiter) (aIP : String) (now : Int)
    (h : goodShards sl.shards) : goodShards (sl.isAllowed aIP now).2.shards := by
  cases h0 : mapGet ((sl.shards[shardIndex aIP]?).getD ⟨[]⟩).clients aIP with
  | none =>
    simp only [tShardedLimiter.isAllowed, List.getD_eq_getElem?_getD, h0]
    exact goodShards_set_mapSet sl.shards aIP _ h
  | some counter =>
    by_cases h1 : sl.windowDuration < now - counter.windowStart
    · simp only [tShardedLimiter.isAllowed, List.getD_eq_getElem?_getD, h0, if_pos h1]
      exact goodShards_set_mapSet sl.shards aIP _ h
    · by_cases h2 : Int.tdiv (counter.prevCount * (sl.windowDuration - (now - counter.windowStart)))
          sl.windowDuration + counter.currentCount ≤ sl.maxRequests
      · simp only [tShardedLimiter.isAllowed, List.getD_eq_getElem?_getD, h0, if_neg h1, if_pos h2]
        exact goodShards_set_mapSet sl.shards aIP _ h
      · simp only [tShardedLimiter.isAllowed, List.getD_eq_getElem?_getD, h0, if_neg h1, if_neg h2]
        exact h

theorem goodShards_runCalls (calls : List (String × Int)) (sl : tShardedLimiter)
    (h : goodShards sl.shards) : goodShards (runCalls sl calls).1.shards := by
  induction calls generalizing sl with
  | nil => exact h
  | cons c rest ih =>
    exact ih (sl.isAllowed c.1 c.2).2 (goodShards_isAllowed sl c.1 c.2 h)

theorem length_shards_runCalls (calls : List (String × Int)) (sl : tShardedLimiter) :
    (runCalls sl calls).1.shards.length = sl.shards.length := by
  induction calls generalizing sl with
  | nil => rfl
  | cons c rest ih =>
    have := (isAllowed_params sl c.1 c.2).2.2.2
    calc (runCalls sl (c :: rest)).1.shards.length
        = (runCalls (sl.isAllowed c.1 c.2).2 rest).1.shards.length := rfl
      _ = (sl.isAllowed c.1 c.2).2.shards.length := ih (sl.isAllowed c.1 c.2).2
      _ = sl.shards.length := this

theorem totalRequests_runCalls (calls : List (String × Int)) (sl : tShardedLimiter) :
    (runCalls sl calls).1.metrics.TotalRequests =
      sl.metrics.TotalRequests + calls.length := by
  induction calls generalizing sl with
  | nil => rfl
  | cons c rest ih =>
    have h1 := isAllowed_total sl c.1 c.2
    have h2 := ih (sl.isAllowed c.1 c.2).2
    calc (runCalls sl (c :: rest)).1.metrics.TotalRequests
        = (runCalls (sl.isAllowed c.1 c.2).2 rest).1.metrics.TotalRequests := rfl
      _ = (sl.isAllowed c.1 c.2).2.metrics.TotalRequests + rest.length := h2
      _ = sl.metrics.TotalRequests + 1 + rest.length := by rw [h1]
      _ = sl.metrics.TotalRequests + (c :: rest).length := by
            simp [List.length_cons]
            omega

theorem blockedRequests_runCalls (calls : List (String × Int)) (sl : tShardedLimiter) :
    (runCalls sl calls).1.metrics.BlockedRequests =
      sl.metrics.BlockedRequests + (runCalls sl calls).2.count false := by
  induction calls generalizing sl with
  | nil => rfl
  | cons c rest ih =>
    have h1 := isAllowed_blocked sl c.1 c.2
    have h2 := ih (sl.isAllowed c.1 c.2).2
    have hshape : (runCalls sl (c :: rest)).2 =
        (sl.isAllowed c.1 c.2).1 :: (runCalls (sl.isAllowed c.1 c.2).2 rest).2 := rfl
    have hfst : (runCalls sl (c :: rest)).1 = (runCalls (sl.isAllowed c.1 c.2).2 rest).1 := rfl
    rw [hfst, h2, h1, hshape, List.count_cons]
    cases hb : (sl.isAllowed c.1 c.2).1 with
    | false =>
      simp only [hb, if_pos rfl]
      simp
      omega
    | true => simp [hb]

theorem activeClients_eq_length_liveKeys (sl : tShardedLimiter) :
    (sl.GetMetrics).ActiveClients = (liveKeys sl).length := by
  simp [tShardedLimiter.GetMetrics, liveKeys, List.length_flatten, List.map_map,
    Function.comp_def, List.length_map]

theorem liveKeys_nodup (sl : tShardedLimiter) (h : goodShards sl.shards) :
    (liveKeys sl).Nodup := by
  rw [liveKeys, List.nodup_flatten]
  constructor
  · intro l hl
    rcases List.mem_map.mp hl with ⟨sh, hsh, rfl⟩
    rcases List.mem_iff_getElem?.mp hsh with ⟨i, hi⟩
    exact (h i sh hi).1
  · rw [List.pairwise_iff_getElem]
    intro i j hi hj hij
    rw [List.getElem_map, List.getElem_map]
    rw [List.disjoint_left]
    intro a ha hb
    have hilt : i < sl.shards.length := by
      simpa using hi
    have hjlt : j < sl.shards.length := by
      simpa using hj
    rcases List.mem_map.mp ha with ⟨kv, hkv, rfl⟩
    rcases List.mem_map.mp hb with ⟨kv2, hkv2, hkk⟩
    have h1 := (h i _ (List.getElem?_eq_getElem hilt)).2 kv hkv
    have h2 := (h j _ (List.getElem?_eq_getElem hjlt)).2 kv2 hkv2
    rw [hkk] at h2
    omega

theorem mem_liveKeys (sl : tShardedLimiter) (h : goodShards sl.shards)
    (k : String) :
    k ∈ liveKeys sl ↔ stateAt sl k ≠ none := by
  constructor
  · intro hk
    rcases List.mem_flatten.mp hk with ⟨l, hl, hkl⟩
    rcases List.mem_map.mp hl with ⟨sh, hsh, rfl⟩
    rcases List.mem_iff_getElem?.mp hsh with ⟨i, hi⟩
    rcases List.mem_map.mp hkl with ⟨kv, hkv, rfl⟩
    have hroute := (h i sh hi).2 kv hkv
    unfold stateAt tShardedLimiter.getShard
    rw [List.getD_eq_getElem?_getD, hroute, hi]
    simp only [Option.getD_some]
    intro hcon
    exact (mapGet_eq_none_iff _ _).mp hcon (List.mem_map.mpr ⟨kv, hkv, rfl⟩)
  · intro hne
    unfold stateAt tShardedLimiter.getShard at hne
    rw [List.getD_eq_getElem?_getD] at hne
    cases hx : sl.shards[shardIndex k]? with
    | none =>
      rw [hx] at hne
      simp [mapGet] at hne
    | some sh =>
      rw [hx] at hne
      simp only [Option.getD_some] at hne
      have hkmem : k ∈ sh.clients.map Prod.fst := by
        by_contra hcon
        exact hne ((mapGet_eq_none_iff _ _).mpr hcon)
      refine List.mem_flatten.mpr ⟨sh.clients.map Prod.fst, ?_, hkmem⟩
      exact List.mem_map.mpr ⟨sh, List.mem_iff_getElem?.mpr ⟨_, hx⟩, rfl⟩

/-- C6: after any sequence of `isAllowed` calls on a fresh limiter (no cleanup
sweeps), `GetMetrics` reports `TotalRequests` equal to the number of calls,
`BlockedRequests` equal to the number of calls that returned `false`, and
`ActiveClients` equal to the number of distinct keys holding a live counter:
`liveKeys` enumerates, without duplicates, exactly the keys whose lookup
succeeds, and `ActiveClients` is its length. -/
theorem c6_metrics_accounting (aMaxReq aDuration : Int) (calls : List (String × Int)) :
    ((runCalls (newShardedLimiter aMaxReq aDuration) calls).1.GetMetrics).TotalRequests
      = calls.length ∧
    ((runCalls (newShardedLimiter aMaxReq aDuration) calls).1.GetMetrics).BlockedRequests
      = (runCalls (newShardedLimiter aMaxReq aDuration) calls).2.count false ∧
    ((runCalls (newShardedLimiter aMaxReq aDuration) calls).1.GetMetrics).ActiveClients
      = (liveKeys (runCalls (newShardedLimiter aMaxReq aDuration) calls).1).length ∧
    (liveKeys (runCalls (newShardedLimiter aMaxReq aDuration) calls).1).Nodup ∧
    (∀ k : String, k ∈ liveKeys (runCalls (newShardedLimiter aMaxReq aDuration) calls).1 ↔
      stateAt (runCalls (newShardedLimiter aMaxReq aDuration) calls).1 k ≠ none) := by
  have hgood := goodShards_runCalls calls (newShardedLimiter aMaxReq aDuration)
    (goodShards_new aMaxReq aDuration)
  refine ⟨?_, ?_, ?_, ?_, ?_⟩
  · rw [tShardedLimiter.GetMetrics, totalRequests_runCalls]
    simp [newShardedLimiter]
  · rw [tShardedLimiter.GetMetrics, blockedRequests_runCalls]
    simp [newShardedLimiter]
  · exact activeClients_eq_length_liveKeys _
  · exact liveKeys_nodup _ hgood
  · intro k
    exact mem_liveKeys _ hgood k

-- ---------------------------------------------------------------------------
-- C8: cross-key noninterference

theorem runTrace_filter_aux (B : String) (L : List (String × Int))
    (slA slB : tShardedLimiter)
    (hmax : slA.maxRequests = slB.maxRequests)
    (hW : slA.windowDuration = slB.windowDuration)
    (hlenA : slA.shards.length = 256) (hlenB : slB.shards.length = 256)
    (hstate : stateAt slA B = stateAt slB B) :
    (runTrace slA L).2.filter (fun e => e.1.1 = B) =
      (runTrace slB (L.filter (fun p => p.1 = B))).2 ∧
    stateAt (runTrace slA L).1 B =
      stateAt (runTrace slB (L.filter (fun p => p.1 = B))).1 B := by
  induction L generalizing slA slB with
  | nil => exact ⟨rfl, hstate⟩
  | cons p rest ih =>
    obtain ⟨k, t⟩ := p
    by_cases hp : k = B
    · subst hp
      have hA1 := isAllowed_fst slA k t
      have hB1 := isAllowed_fst slB k t
      have hfst_eq : (slA.isAllowed k t).1 = (slB.isAllowed k t).1 := by
        rw [hA1, hB1, hmax, hW, hstate]
      have hselfA := stateAt_isAllowed_self slA k t hlenA
      have hselfB := stateAt_isAllowed_self slB k t hlenB
      have hstate2 : stateAt (slA.isAllowed k t).2 k = stateAt (slB.isAllowed k t).2 k := by
        rw [hselfA, hselfB, hmax, hW, hstate]
      have hpA := isAllowed_params slA k t
      have hpB := isAllowed_params slB k t
      have ihres := ih (slA.isAllowed k t).2 (slB.isAllowed k t).2
        (by rw [hpA.1, hpB.1, hmax]) (by rw [hpA.2.1, hpB.2.1, hW])
        (by rw [hpA.2.2.2, hlenA]) (by rw [hpB.2.2.2, hlenB]) hstate2
      constructor
      · show (((k, t), (slA.isAllowed k t).1) ::
            (runTrace (slA.isAllowed k t).2 rest).2).filter (fun e => e.1.1 = k)
          = (runTrace slB (((k, t) :: rest).filter (fun p => p.1 = k))).2
        rw [List.filter_cons_of_pos (by simp), List.filter_cons_of_pos (by simp)]
        show ((k, t), (slA.isAllowed k t).1) ::
            ((runTrace (slA.isAllowed k t).2 rest).2.filter (fun e => e.1.1 = k))
          = ((k, t), (slB.isAllowed k t).1) ::
            (runTrace (slB.isAllowed k t).2 (rest.filter (fun p => p.1 = k))).2
        rw [hfst_eq, ihres.1]
      · show stateAt (runTrace (slA.isAllowed k t).2 rest).1 k =
          stateAt (runTrace slB (((k, t) :: rest).filter (fun p => p.1 = k))).1 k
        rw [List.filter_cons_of_pos (by simp)]
        show stateAt (runTrace (slA.isAllowed k t).2 rest).1 k =
          stateAt (runTrace (slB.isAllowed k t).2 (rest.filter (fun p => p.1 = k))).1 k
        exact ihres.2
    · have hstate2 : stateAt (slA.isAllowed k t).2 B = stateAt slB B := by
        rw [stateAt_isAllowed_ne slA k t B (Ne.symm hp)]
        exact hstate
      have hpA := isAllowed_params slA k t
      have ihres := ih (slA.isAllowed k t).2 slB
        (by rw [hpA.1, hmax]) (by rw [hpA.2.1, hW]) (by rw [hpA.2.2.2, hlenA]) hlenB hstate2
      constructor
      · show (((k, t), (slA.isAllowed k t).1) ::
            (runTrace (slA.isAllowed k t).2 rest).2).filter (fun e => e.1.1 = B)
          = (runTrace slB (((k, t) :: rest).filter (fun p => p.1 = B))).2
        rw [List.filter_cons_of_neg (by simp [hp]), List.filter_cons_of_neg (by simp [hp])]
        exact ihres.1
      · show stateAt (runTrace (slA.isAllowed k t).2 rest).1 B =
          stateAt (runTrace slB (((k, t) :: rest).filter (fun p => p.1 = B))).1 B
        rw [List.filter_cons_of_neg (by simp [hp])]
        exact ihres.2

/-- C8: for two distinct keys `A` and `B` and any sequence of calls whose keys
are all `A` or `B`, the `B` entries of the run's trace (call and decision) and
`B`'s final counter are the same as when the interleaved `A` calls are removed
from the sequence: saturating `A` never changes `B`'s admission decisions or
counter state. -/
theorem c8_cross_key_noninterference (A B : String) (hAB : A ≠ B)
    (L : List (String × Int)) (hkeys : ∀ p ∈ L, p.1 = A ∨ p.1 = B)
    (sl : tShardedLimiter) (hlen : sl.shards.length = 256) :
    (runTrace sl L).2.filter (fun e => e.1.1 = B) =
      (runTrace sl (L.filter (fun p => p.1 = B))).2 ∧
    stateAt (runTrace sl L).1 B =
      stateAt (runTrace sl (L.filter (fun p => p.1 = B))).1 B :=
  runTrace_filter_aux B L sl sl rfl rfl hlen hlen rfl

-- ---------------------------------------------------------------------------
-- Witnesses: the hypothesis-bearing claim theorems applied at concrete inputs

theorem c2_weighted_window_decision_witness :
    ((((newShardedLimiter 5 30).isAllowed "A" 0).2.isAllowed "A" 10).1 = true ↔
      ⌊((0 : Int) : ℚ) * (1 - ((10 - 0 : Int) : ℚ) / ((30 : Int) : ℚ))⌋ + 1 ≤ 5) ∧
    ((((newShardedLimiter 5 30).isAllowed "A" 0).2.isAllowed "A" 10).1 = true →
      stateAt (((newShardedLimiter 5 30).isAllowed "A" 0).2.isAllowed "A" 10).2 "A" =
        some { prevCount := 0, currentCount := 1 + 1, windowStart := 0 }) :=
  c2_weighted_window_decision (((newShardedLimiter 5 30).isAllowed "A" 0).2) "A" 10 ⟨0, 1, 0⟩
    (by decide) (by decide) (by decide) (by decide) (by decide)

theorem c3_first_request_admitted_witness :
    ((newShardedLimiter 0 30).isAllowed "A" 5).1 = true ∧
    stateAt ((newShardedLimiter 0 30).isAllowed "A" 5).2 "A" =
      some { prevCount := 0, currentCount := 1, windowStart := 5 } :=
  c3_first_request_admitted (newShardedLimiter 0 30) "A" 5 (by decide) (by decide)

theorem c4_window_rollover_witness :
    ((((newShardedLimiter 5 30).isAllowed "A" 0).2).isAllowed "A" 100).1 = true ∧
    stateAt ((((newShardedLimiter 5 30).isAllowed "A" 0).2).isAllowed "A" 100).2 "A" =
      some { prevCount := 1, currentCount := 1, windowStart := 100 } :=
  c4_window_rollover (((newShardedLimiter 5 30).isAllowed "A" 0).2) "A" 100 ⟨0, 1, 0⟩
    (by decide) (by decide) (by decide)

theorem c5_denial_frame_witness :
    ((((newShardedLimiter 0 30).isAllowed "A" 0).2).isAllowed "A" 0).2.shards =
      (((newShardedLimiter 0 30).isAllowed "A" 0).2).shards ∧
    (((((newShardedLimiter 0 30).isAllowed "A" 0).2).isAllowed "A" 0).2.isAllowed "A" 0).1
      = false :=
  c5_denial_frame (((newShardedLimiter 0 30).isAllowed "A" 0).2) "A" 0 (by decide)

theorem c8_cross_key_noninterference_witness :
    ((runTrace (newShardedLimiter 1 30) [("A", 0), ("B", 0), ("A", 0), ("B", 0)]).2.filter
        (fun e => e.1.1 = "B") =
      (runTrace (newShardedLimiter 1 30)
        ([("A", 0), ("B", 0), ("A", 0), ("B", 0)].filter (fun p => p.1 = "B"))).2) ∧
    stateAt (runTrace (newShardedLimiter 1 30)
        [("A", 0), ("B", 0), ("A", 0), ("B", 0)]).1 "B" =
      stateAt (runTrace (newShardedLimiter 1 30)
        ([("A", 0), ("B", 0), ("A", 0), ("B", 0)].filter (fun p => p.1 = "B"))).1 "B" :=
  c8_cross_key_noninterference "A" "B" (by decide) [("A", 0), ("B", 0), ("A", 0), ("B", 0)]
    (by decide) (newShardedLimiter 1 30) (by decide)

theorem c9_wrap_outcomes_witness :
    wrapHandler (newShardedLimiter 0 30) none 0 = (tWrapOutcome.forbidden, newShardedLimiter 0 30) ∧
    wrapHandler (newShardedLimiter 0 30) (some "A") 0 =
      (tWrapOutcome.nextCalled, ((newShardedLimiter 0 30).isAllowed "A" 0).2) :=
  ⟨(c9_wrap_outcomes (newShardedLimiter 0 30) none 0).1 rfl,
   ((c9_wrap_outcomes (newShardedLimiter 0 30) (some "A") 0).2 "A" rfl).2 (by decide)⟩

theorem c10_counter_invariant_witness :
    1 ≤ (⟨0, 1, 5⟩ : tSlidingWindowCounter).currentCount ∧
      0 ≤ (⟨0, 1, 5⟩ : tSlidingWindowCounter).prevCount :=
  c10_counter_invariant 3 30 [tOp.req "A" 5] 65 ⟨[("A", ⟨0, 1, 5⟩)]⟩ "A" ⟨0, 1, 5⟩
    (by decide) (by decide)
